import Mathlib

/-!
Verification of `js/modules/k6/http/response.go` (k6): the Response
entity, its lazy JSON accessor, the HTML accessor, and the SubmitForm
and ClickLink request derivers.

External collaborators are treated as in the specification: the JSON
engines (`encoding/json`, `gjson`) and the HTML engine are abstract
parameters; Go `net/url` is modelled concretely because the claims need
its reference-resolution behaviour on concrete inputs.
-/

namespace K6Http

/-- JSON values as produced by the external JSON engines
(`encoding/json` and `gjson`). -/
inductive JSON where
  | null
  | bool (b : Bool)
  | num (n : Int)
  | str (s : String)
  | arr (elems : List JSON)
  | obj (fields : List (String × JSON))

/-- The part of `goja.Value` observed by `Response.JSON`: either
`goja.Undefined()` or a runtime value obtained via `rt.ToValue`. -/
inductive GojaValue where
  | undefined
  | val (v : JSON)

/-- UTF-8 encoding of one code point, as Go produces for `[]byte(s)`. -/
def utf8Bytes (c : Nat) : List Nat :=
  if c < 0x80 then [c]
  else if c < 0x800 then [0xC0 + c / 0x40, 0x80 + c % 0x40]
  else if c < 0x10000 then [0xE0 + c / 0x1000, 0x80 + c / 0x40 % 0x40, 0x80 + c % 0x40]
  else [0xF0 + c / 0x40000, 0x80 + c / 0x1000 % 0x40, 0x80 + c / 0x40 % 0x40, 0x80 + c % 0x40]

/-- The Go conversion `[]byte(s)`. -/
def strToBytes (s : String) : List Nat :=
  (s.toList.map (fun ch => utf8Bytes ch.toNat)).flatten

/-- Helper for `bytesToStr`, consuming at least one byte per fuel unit. -/
def bytesToStrAux : Nat → List Nat → List Char
  | 0, _ => []
  | _ + 1, [] => []
  | fuel + 1, b :: rest =>
    if b < 0x80 then
      Char.ofNat b :: bytesToStrAux fuel rest
    else if 0xC0 ≤ b ∧ b < 0xE0 then
      match rest with
      | b2 :: rest2 => Char.ofNat ((b - 0xC0) * 0x40 + (b2 - 0x80)) :: bytesToStrAux fuel rest2
      | [] => [Char.ofNat 0xFFFD]
    else if 0xE0 ≤ b ∧ b < 0xF0 then
      match rest with
      | b2 :: b3 :: rest3 =>
        Char.ofNat ((b - 0xE0) * 0x1000 + (b2 - 0x80) * 0x40 + (b3 - 0x80))
          :: bytesToStrAux fuel rest3
      | _ => [Char.ofNat 0xFFFD]
    else
      Char.ofNat 0xFFFD :: bytesToStrAux fuel rest

/-- The Go conversion `string(b)` used by `Response.HTML` (simplified
UTF-8 decoding; the claims only exercise string bodies for HTML). -/
def bytesToStr (bs : List Nat) : String :=
  String.mk (bytesToStrAux bs.length bs)

/-- `Response.Body` is a Go `interface{}`; the accessors distinguish
`[]byte`, `string` and everything else (the `default` branch). -/
inductive Body where
  | bytes (bs : List Nat)
  | str (s : String)
  | other

/-- The `switch b := res.Body.(type)` at the top of `Response.JSON`:
the `[]byte` view of the body, `none` for the `default` branch (which
throws `invalid response type`). -/
def Body.toBytes : Body → Option (List Nat)
  | .bytes bs => some bs
  | .str s => some (strToBytes s)
  | .other => none

/-- The `switch` at the top of `Response.HTML`: the `string` view of
the body, `none` for the `default` branch. -/
def Body.toStr : Body → Option String
  | .bytes bs => some (bytesToStr bs)
  | .str s => some s
  | .other => none

/-- The error kinds surfaced by `common.Throw` in response.go
(section 7 of the specification). -/
inductive HTTPError where
  | invalidBodyType
  | malformedJSON
  | malformedURL
  | formNotFound
  | elementNotFound
  | missingHrefAttribute
  | htmlParseError
  deriving DecidableEq

/-- The external JSON collaborators used by `Response.JSON`:
`json.Unmarshal` (full parse, `none` = error), `gjson.ValidBytes`, and
`gjson.GetBytes` (`none` models `!result.Exists()`). -/
structure JSONEngine where
  unmarshal : List Nat → Option JSON
  validBytes : List Nat → Bool
  getBytes : List Nat → String → Option JSON

/-- The fields of the Go `Response` struct read or written by the four
claimed operations: the final URL, the body, and the two lazily mutated
fields `cachedJSON` and `validatedJSON`. (The remaining fields - status,
headers, timings, TLS metadata, request - are carried by the struct but
never touched by `JSON`, `HTML`, `SubmitForm` or `ClickLink`.) -/
structure Response where
  url : String
  body : Body
  cachedJSON : Option GojaValue
  validatedJSON : Bool

/-- The outcome of one `Response.JSON` call: the returned value or the
thrown error, the Response state afterwards, and how often the external
full parser (`json.Unmarshal`) and the validator (`gjson.ValidBytes`)
were invoked - the parse-count probe of the specification. -/
structure JSONOutcome where
  result : Except HTTPError GojaValue
  next : Response
  unmarshalCalls : Nat
  validCalls : Nat

/-- `Response.JSON(selector...)` (response.go lines 83-121) as a
state-passing function; `sel = none` is a call without selector. -/
def Response.JSONcall (eng : JSONEngine) (res : Response) (sel : Option String) : JSONOutcome :=
  match sel with
  | some s =>
    match res.body.toBytes with
    | none => ⟨.error .invalidBodyType, res, 0, 0⟩
    | some bs =>
      if res.validatedJSON then
        match eng.getBytes bs s with
        | none => ⟨.ok .undefined, res, 0, 0⟩
        | some v => ⟨.ok (.val v), res, 0, 0⟩
      else if eng.validBytes bs then
        match eng.getBytes bs s with
        | none => ⟨.ok .undefined, { res with validatedJSON := true }, 0, 1⟩
        | some v => ⟨.ok (.val v), { res with validatedJSON := true }, 0, 1⟩
      else ⟨.ok .undefined, res, 0, 1⟩
  | none =>
    match res.cachedJSON with
    | some c => ⟨.ok c, res, 0, 0⟩
    | none =>
      match res.body.toBytes with
      | none => ⟨.error .invalidBodyType, res, 0, 0⟩
      | some bs =>
        match eng.unmarshal bs with
        | none => ⟨.error .malformedJSON, res, 1, 0⟩
        | some v =>
          ⟨.ok (.val v), { res with cachedJSON := some (.val v), validatedJSON := true }, 1, 0⟩

/-- A sequence of `JSON` calls on one Response, threading the lazy state
and accumulating the number of full parses. -/
def Response.JSONcalls (eng : JSONEngine) :
    Response → List (Option String) → List (Except HTTPError GojaValue) × Response × Nat
  | res, [] => ([], res, 0)
  | res, sel :: rest =>
    let o := Response.JSONcall eng res sel
    let r := Response.JSONcalls eng o.next rest
    (o.result :: r.1, r.2.1, o.unmarshalCalls + r.2.2)

/-- Whether a given call performs a successful syntax validation
(selector path: `gjson.ValidBytes` succeeds) or a successful full parse
(no-selector path on a cache miss: `json.Unmarshal` succeeds). -/
def validationEvent (eng : JSONEngine) (res : Response) (sel : Option String) : Bool :=
  match res.body.toBytes with
  | none => false
  | some bs =>
    match sel with
    | some _ => eng.validBytes bs
    | none => res.cachedJSON.isNone && (eng.unmarshal bs).isSome

/-- The slice of the external HTML engine selection API used by
response.go: `Size`, `Attr`, `Val`, `SerializeObject`, `Find`
(`sub q = none` models a `Find` that yields an empty selection). -/
inductive Sel where
  | mk (size : Nat) (attr : String → Option String) (val : Option String)
      (serialized : List (String × String)) (sub : String → Option Sel)

def Sel.size : Sel → Nat
  | .mk n _ _ _ _ => n

def Sel.attr : Sel → String → Option String
  | .mk _ a _ _ _ => a

def Sel.val : Sel → Option String
  | .mk _ _ v _ _ => v

def Sel.serializeObject : Sel → List (String × String)
  | .mk _ _ _ ser _ => ser

/-- The empty selection: zero matches, every attribute undefined. -/
def Sel.empty : Sel := .mk 0 (fun _ => none) none [] (fun _ => none)

def Sel.find : Sel → String → Sel
  | .mk _ _ _ _ sub, q =>
    match sub q with
    | some t => t
    | none => Sel.empty

/-- The external HTML engine, `html.HTML{}.ParseHTML` (`none` = parse
error). -/
structure HTMLEngine where
  parseHTML : String → Option Sel

/-- `Response.HTML(selector...)` (response.go lines 124-144). -/
def htmlCall (henv : HTMLEngine) (body : Body) (sel : Option String) : Except HTTPError Sel :=
  match body.toStr with
  | none => .error .invalidBodyType
  | some s =>
    match henv.parseHTML s with
    | none => .error .htmlParseError
    | some root =>
      match sel with
      | some q => .ok (root.find q)
      | none => .ok root

/-- A URL as modelled from Go `net/url`, restricted to the components
read and written by response.go: scheme, host, path and raw query
(userinfo, opaque part and fragment are never exercised). -/
structure URL where
  scheme : String
  host : String
  path : String
  rawQuery : String
  deriving DecidableEq

/-- `pre` is a prefix of `s` (kernel-reducible `startsWith`). -/
def strStartsWith (s pre : String) : Bool :=
  pre.toList.isPrefixOf s.toList

/-- Drop the first `n` characters (kernel-reducible `drop`). -/
def strDrop (s : String) (n : Nat) : String :=
  String.mk (s.toList.drop n)

/-- First character, defaulting to a space (callers guard emptiness). -/
def strHead (s : String) : Char :=
  s.toList.headD ' '

/-- ASCII upper-casing, `strings.ToUpper` on the method attribute. -/
def strToUpper (s : String) : String :=
  String.mk (s.toList.map Char.toUpper)

/-- Helper for `splitOnChar`. -/
def splitOnCharAux (c : Char) : List Char → List Char → List String
  | [], acc => [String.mk acc.reverse]
  | x :: xs, acc =>
    if x = c then String.mk acc.reverse :: splitOnCharAux c xs []
    else splitOnCharAux c xs (x :: acc)

/-- `strings.Split` on a one-character separator. -/
def splitOnChar (s : String) (c : Char) : List String :=
  splitOnCharAux c s.toList []

/-- `net/url` rejects URLs containing ASCII control characters. -/
def hasCtl (s : String) : Bool :=
  s.toList.any (fun c => decide (c.toNat < 0x20 ∨ c.toNat = 0x7f))

/-- Split a string at the first occurrence of a character. -/
def splitFirstChar (s : String) (c : Char) : String × Option String :=
  match s.toList.findIdx? (· = c) with
  | none => (s, none)
  | some i => (String.mk (s.toList.take i), some (String.mk (s.toList.drop (i + 1))))

/-- Modelled from `net/url` getScheme: a scheme is a leading run of
alpha then alphanumeric or `+` `-` `.` characters terminated by a colon;
`none` models the `missing protocol scheme` parse error (colon first). -/
def splitScheme (s : String) : Option (String × String) :=
  match s.toList.findIdx? (· = ':') with
  | none => some ("", s)
  | some 0 => none
  | some (i + 1) =>
    let pre := s.toList.take (i + 1)
    if (pre.headD ' ').isAlpha ∧ pre.all (fun c => c.isAlphanum ∨ c = '+' ∨ c = '-' ∨ c = '.') then
      some (String.mk pre, String.mk (s.toList.drop (i + 2)))
    else
      some ("", s)

/-- Split an authority-plus-path remainder at the first slash. -/
def splitHostPath (s : String) : String × String :=
  match s.toList.findIdx? (· = '/') with
  | none => (s, "")
  | some i => (String.mk (s.toList.take i), String.mk (s.toList.drop i))

/-- Modelled from Go `url.Parse`, restricted to the URL shapes and
failure modes response.go exercises: control characters and a missing
protocol scheme fail; `scheme://host/path?query` splits into its
components; anything without a scheme parses as a (possibly relative)
path plus query. -/
def urlParse (raw : String) : Option URL :=
  if hasCtl raw then none
  else
    let pq := splitFirstChar raw '?'
    let rawQuery := pq.2.getD ""
    match splitScheme pq.1 with
    | none => none
    | some (scheme, rest) =>
      if scheme ≠ "" ∧ strStartsWith rest "//" = true then
        let hp := splitHostPath (strDrop rest 2)
        some ⟨scheme, hp.1, hp.2, rawQuery⟩
      else
        some ⟨scheme, "", rest, rawQuery⟩

/-- `base[:strings.LastIndex(base, "/")+1]` from `net/url` resolvePath. -/
def upToLastSlash (s : String) : String :=
  String.mk (s.toList.reverse.dropWhile (· ≠ '/')).reverse

/-- Modelled from `net/url` resolvePath (RFC 3986 section 5.2, merge
and remove_dot_segments): merge the reference path with the base path
and collapse `.` and `..` segments. -/
def resolvePath (base ref : String) : String :=
  let full :=
    if ref = "" then base
    else if strHead ref ≠ '/' then upToLastSlash base ++ ref
    else ref
  if full = "" then ""
  else
    let src := splitOnChar full '/'
    let dst := src.foldl
      (fun d e =>
        if e = "." then d
        else if e = ".." then d.dropLast
        else d ++ [e])
      ([] : List String)
    let dst := if src.getLastD "" = "." ∨ src.getLastD "" = ".." then dst ++ [""] else dst
    let joined := String.intercalate "/" dst
    "/" ++ (if strStartsWith joined "/" = true then strDrop joined 1 else joined)

/-- Modelled from `net/url` `URL.ResolveReference`, restricted to the
modelled components. -/
def URL.resolveReference (u ref : URL) : URL :=
  let scheme := if ref.scheme = "" then u.scheme else ref.scheme
  if ref.scheme ≠ "" ∨ ref.host ≠ "" then
    ⟨scheme, ref.host, resolvePath ref.path "", ref.rawQuery⟩
  else
    let rq := if ref.path = "" ∧ ref.rawQuery = "" then u.rawQuery else ref.rawQuery
    ⟨scheme, u.host, resolvePath u.path ref.path, rq⟩

/-- Modelled from `net/url` `URL.String`, restricted to the modelled
components. -/
def URL.render (u : URL) : String :=
  (if u.scheme ≠ "" then u.scheme ++ ":" else "")
    ++ (if u.scheme ≠ "" ∨ u.host ≠ "" then
          (if u.host ≠ "" ∨ u.path ≠ "" then "//" else "") ++ u.host
        else "")
    ++ (if u.path ≠ "" ∧ u.host ≠ "" ∧ strStartsWith u.path "/" = false then "/" else "")
    ++ u.path
    ++ (if u.rawQuery ≠ "" then "?" ++ u.rawQuery else "")

def hexUpperDigit (n : Nat) : Char :=
  if n < 10 then Char.ofNat (0x30 + n) else Char.ofNat (0x41 + (n - 10))

/-- Bytes left unescaped by Go `url.QueryEscape`: alphanumerics and
`-` `_` `.` `~`. -/
def byteUnescaped (b : Nat) : Bool :=
  decide ((0x41 ≤ b ∧ b ≤ 0x5A) ∨ (0x61 ≤ b ∧ b ≤ 0x7A) ∨ (0x30 ≤ b ∧ b ≤ 0x39)
    ∨ b = 0x2D ∨ b = 0x5F ∨ b = 0x2E ∨ b = 0x7E)

/-- Modelled from Go `url.QueryEscape`: space becomes `+`, unreserved
bytes stay, every other byte becomes `%XX`. -/
def queryEscape (s : String) : String :=
  String.mk (((strToBytes s).map (fun b =>
    if byteUnescaped b then [Char.ofNat b]
    else if b = 0x20 then ['+']
    else ['%', hexUpperDigit (b / 16), hexUpperDigit (b % 16)])).flatten)

/-- Assignment `values[k] = v` on a `map[string]goja.Value`, as an
association list with unique keys: replace when present, append when
absent. -/
def upsert : List (String × String) → String → String → List (String × String)
  | [], k, v => [(k, v)]
  | p :: rest, k, v => if p.1 = k then (k, v) :: rest else p :: upsert rest k v

/-- Map lookup `values[k]`. -/
def lookupVal (m : List (String × String)) (k : String) : Option String :=
  (m.find? (fun p => decide (p.1 = k))).map (fun p => p.2)

/-- Insertion into a key-sorted list (`sort.Strings` over the map keys
inside `url.Values.Encode`). -/
def insertSorted (kv : String × String) : List (String × String) → List (String × String)
  | [] => [kv]
  | x :: xs => if kv.1 ≤ x.1 then kv :: x :: xs else x :: insertSorted kv xs

def sortByKey (m : List (String × String)) : List (String × String) :=
  m.foldr insertSorted []

/-- Modelled from Go `url.Values.Encode` applied to the query built by
the GET branch of SubmitForm (`q.Add(k, v.String())` for every entry of
the field map): keys sorted, each pair escaped and joined with `&`. -/
def encodeValues (m : List (String × String)) : String :=
  String.intercalate "&" ((sortByKey m).map (fun kv => queryEscape kv.1 ++ "=" ++ queryEscape kv.2))

/-- The outbound request handed to the request-issuing collaborator:
method, rendered URL, and the form body (`none` models the
`goja.Null()` body of the GET branch). -/
structure Request where
  method : String
  url : String
  formBody : Option (List (String × String))
  deriving DecidableEq

def HTTP_METHOD_GET : String := "GET"

/-- Response.go lines 178-185: the request method is the form method
attribute upper-cased, defaulting to GET when the attribute is
undefined. -/
def formMethod (form : Sel) : String :=
  match form.attr "method" with
  | none => HTTP_METHOD_GET
  | some m => strToUpper m

/-- Response.go lines 192-203: the target URL is the action attribute
parsed and resolved against the response URL when the attribute is
defined, the response URL itself otherwise. -/
def formTargetURL (responseURL : URL) (form : Sel) : Except HTTPError URL :=
  match form.attr "action" with
  | none => .ok responseURL
  | some a =>
    match urlParse a with
    | none => .error .malformedURL
    | some actionURL => .ok (responseURL.resolveReference actionURL)

/-- Response.go lines 205-219: the field mapping - serialized form
values, then the submit control pair when both its name and value are
defined, then the caller-supplied fields. -/
def formValues (form : Sel) (submitSelector : String)
    (fields : List (String × String)) : List (String × String) :=
  let values := form.serializeObject
  let submit := form.find submitSelector
  let values :=
    match submit.attr "name", submit.val with
    | some n, some v => upsert values n v
    | _, _ => values
  fields.foldl (fun m kv => upsert m kv.1 kv.2) values

def defaultFormSelector : String := "form"

def defaultSubmitSelector : String := "[type=\"submit\"]"

/-- `Response.SubmitForm` (response.go lines 148-230), with the option
object already unmarshalled into its recognized entries and the issued
request returned as data. The order of the failure points follows the
source: HTML selection, the form-size check, the response URL parse, the
action parse, then the request construction. -/
def submitForm (henv : HTMLEngine) (res : Response) (formSelector submitSelector : String)
    (fields : List (String × String)) : Except HTTPError Request :=
  match htmlCall henv res.body (some formSelector) with
  | .error e => .error e
  | .ok form =>
    if form.size = 0 then .error .formNotFound
    else
      let requestMethod := formMethod form
      match urlParse res.url with
      | none => .error .malformedURL
      | some responseURL =>
        match formTargetURL responseURL form with
        | .error e => .error e
        | .ok requestURL =>
          let values := formValues form submitSelector fields
          if requestMethod = HTTP_METHOD_GET then
            .ok { method := requestMethod,
                  url := URL.render { requestURL with rawQuery := encodeValues values },
                  formBody := none }
          else
            .ok { method := requestMethod, url := requestURL.render, formBody := some values }

def defaultLinkSelector : String := "a[href]"

/-- `Response.ClickLink` (response.go lines 234-271): parse the response
URL, select the link, read `href`, parse and resolve it, and issue a
GET. The order of the failure points follows the source: here the
response URL is parsed before the selection. -/
def clickLink (henv : HTMLEngine) (res : Response) (selector : String) :
    Except HTTPError Request :=
  match urlParse res.url with
  | none => .error .malformedURL
  | some responseURL =>
    match htmlCall henv res.body (some selector) with
    | .error e => .error e
    | .ok link =>
      if link.size = 0 then .error .elementNotFound
      else
        match link.attr "href" with
        | none => .error .missingHrefAttribute
        | some href =>
          match urlParse href with
          | none => .error .malformedURL
          | some hrefURL =>
            .ok { method := HTTP_METHOD_GET,
                  url := (responseURL.resolveReference hrefURL).render,
                  formBody := none }

/-! ## Helper lemmas about the JSON accessor -/

theorem jsonCall_cacheHit (eng : JSONEngine) (res : Response) (c : GojaValue)
    (h : res.cachedJSON = some c) :
    Response.JSONcall eng res none = ⟨.ok c, res, 0, 0⟩ := by
  simp [Response.JSONcall, h]

theorem jsonCall_freshParse (eng : JSONEngine) (res : Response) (bs : List Nat) (v : JSON)
    (hc : res.cachedJSON = none) (hb : res.body.toBytes = some bs)
    (hp : eng.unmarshal bs = some v) :
    Response.JSONcall eng res none =
      ⟨.ok (.val v), { res with cachedJSON := some (.val v), validatedJSON := true }, 1, 0⟩ := by
  simp [Response.JSONcall, hc, hb, hp]

theorem jsonCalls_replicate_cached (eng : JSONEngine) (c : GojaValue) :
    ∀ (n : Nat) (res : Response), res.cachedJSON = some c →
      Response.JSONcalls eng res (List.replicate n none) =
        (List.replicate n (Except.ok c), res, 0) := by
  intro n
  induction n with
  | zero => intro res _; simp [Response.JSONcalls]
  | succ n ih =>
    intro res h
    rw [List.replicate_succ]
    simp only [Response.JSONcalls]
    rw [jsonCall_cacheHit eng res c h, ih res h]
    simp [List.replicate_succ]

/-! ## C1: full-parse caching -/

/-- C1: for a Response whose body is a byte sequence or string holding
well-formed JSON (`json.Unmarshal` succeeds), any number of repeated
no-selector `JSON` calls parses the body exactly once and every call
returns the same cached value; and a selector-bearing call never writes
the full-parse cache and its result never reads it (only the validity
flag). -/
theorem json_full_parse_cached_once (eng : JSONEngine) (res : Response) (bs : List Nat)
    (v : JSON) (hc : res.cachedJSON = none) (hb : res.body.toBytes = some bs)
    (hp : eng.unmarshal bs = some v) (n : Nat) :
    (∀ r ∈ (Response.JSONcalls eng res (List.replicate (n + 1) none)).1,
        r = Except.ok (GojaValue.val v))
    ∧ (Response.JSONcalls eng res (List.replicate (n + 1) none)).2.2 = 1
    ∧ (∀ (r : Response) (s : String),
        (Response.JSONcall eng r (some s)).next.cachedJSON = r.cachedJSON
        ∧ ∀ c : Option GojaValue,
            (Response.JSONcall eng { r with cachedJSON := c } (some s)).result
              = (Response.JSONcall eng r (some s)).result) := by
  have hrun : Response.JSONcalls eng res (List.replicate (n + 1) none) =
      (Except.ok (GojaValue.val v) :: List.replicate n (Except.ok (GojaValue.val v)),
        { res with cachedJSON := some (.val v), validatedJSON := true }, 1) := by
    rw [List.replicate_succ]
    simp only [Response.JSONcalls]
    rw [jsonCall_freshParse eng res bs v hc hb hp]
    rw [jsonCalls_replicate_cached eng (GojaValue.val v) n
      { res with cachedJSON := some (.val v), validatedJSON := true } rfl]
    rfl
  refine ⟨?_, ?_, ?_⟩
  · rw [hrun]
    intro r hr
    rcases List.mem_cons.mp hr with h | h
    · exact h
    · exact (List.eq_of_mem_replicate h)
  · rw [hrun]
  · intro r s
    constructor
    · cases hb2 : r.body.toBytes with
      | none => simp [Response.JSONcall, hb2]
      | some bs2 =>
        cases hval : r.validatedJSON with
        | true =>
          cases hg : eng.getBytes bs2 s with
          | none => simp [Response.JSONcall, hb2, hval, hg]
          | some w => simp [Response.JSONcall, hb2, hval, hg]
        | false =>
          cases hv : eng.validBytes bs2 with
          | false => simp [Response.JSONcall, hb2, hval, hv]
          | true =>
            cases hg : eng.getBytes bs2 s with
            | none => simp [Response.JSONcall, hb2, hval, hv, hg]
            | some w => simp [Response.JSONcall, hb2, hval, hv, hg]
    · intro c
      cases hb2 : r.body.toBytes with
      | none => simp [Response.JSONcall, hb2]
      | some bs2 =>
        cases hval : r.validatedJSON with
        | true =>
          cases hg : eng.getBytes bs2 s with
          | none => simp [Response.JSONcall, hb2, hval, hg]
          | some w => simp [Response.JSONcall, hb2, hval, hg]
        | false =>
          cases hv : eng.validBytes bs2 with
          | false => simp [Response.JSONcall, hb2, hval, hv]
          | true =>
            cases hg : eng.getBytes bs2 s with
            | none => simp [Response.JSONcall, hb2, hval, hv, hg]
            | some w => simp [Response.JSONcall, hb2, hval, hv, hg]

/-- A concrete JSON engine for the C1 witness: every body parses to the
number one and validates. -/
def engWellFormed : JSONEngine :=
  ⟨fun _ => some (.num 1), fun _ => true, fun _ _ => some (.num 1)⟩

/-- A concrete fresh Response with the string body `1`. -/
def resNumberBody : Response := ⟨"http://host/x", .str "1", none, false⟩

theorem json_full_parse_cached_once_witness :
    (∀ r ∈ (Response.JSONcalls engWellFormed resNumberBody (List.replicate 2 none)).1,
        r = Except.ok (GojaValue.val (JSON.num 1)))
    ∧ (Response.JSONcalls engWellFormed resNumberBody (List.replicate 2 none)).2.2 = 1 := by
  have h := json_full_parse_cached_once engWellFormed resNumberBody
    (strToBytes "1") (JSON.num 1) rfl rfl rfl 1
  exact ⟨h.1, h.2.1⟩

/-! ## C2: malformed JSON, selector vs full parse -/

theorem jsonCall_invalid_step (eng : JSONEngine) (res : Response) (bs : List Nat)
    (hb : res.body.toBytes = some bs) (hc : res.cachedJSON = none)
    (hf : res.validatedJSON = false) (hv : eng.validBytes bs = false)
    (hp : eng.unmarshal bs = none) (sel : Option String) :
    (Response.JSONcall eng res sel).next = res
    ∧ (sel = none → (Response.JSONcall eng res sel).result = .error .malformedJSON)
    ∧ (∀ s, sel = some s → (Response.JSONcall eng res sel).result = .ok .undefined) := by
  cases sel with
  | none => simp [Response.JSONcall, hb, hc, hp]
  | some s => simp [Response.JSONcall, hb, hf, hv]

/-- C2: on a Response whose body is a byte sequence or string that is
not syntactically valid JSON (the validator rejects it and the full
parser fails on it), every selector-bearing `JSON` call in any call
sequence from the fresh state returns the undefined sentinel and never
raises, while every no-selector call raises MalformedJSON; the lazy
state never changes. -/
theorem json_malformed_selector_vs_full (eng : JSONEngine) (res : Response) (bs : List Nat)
    (hb : res.body.toBytes = some bs) (hc : res.cachedJSON = none)
    (hf : res.validatedJSON = false) (hv : eng.validBytes bs = false)
    (hp : eng.unmarshal bs = none) :
    ∀ sels : List (Option String),
      (Response.JSONcalls eng res sels).2.1 = res
      ∧ ∀ p ∈ sels.zip (Response.JSONcalls eng res sels).1,
          (p.1 = none → p.2 = Except.error HTTPError.malformedJSON)
          ∧ (∀ s, p.1 = some s → p.2 = Except.ok GojaValue.undefined) := by
  intro sels
  induction sels with
  | nil => exact ⟨rfl, by simp⟩
  | cons sel rest ih =>
    have hstep := jsonCall_invalid_step eng res bs hb hc hf hv hp sel
    simp only [Response.JSONcalls]
    rw [hstep.1]
    refine ⟨ih.1, ?_⟩
    intro p hmem
    rw [List.zip_cons_cons] at hmem
    rcases List.mem_cons.mp hmem with h | h
    · subst h
      exact ⟨hstep.2.1, hstep.2.2⟩
    · exact ih.2 p h

/-- A concrete JSON engine for the C2 witness: nothing validates or
parses. -/
def engMalformed : JSONEngine := ⟨fun _ => none, fun _ => false, fun _ _ => none⟩

/-- A concrete fresh Response with a malformed JSON string body. -/
def resBadJSONBody : Response := ⟨"http://host/x", .str "not json", none, false⟩

theorem json_malformed_selector_vs_full_witness :
    (Response.JSONcalls engMalformed resBadJSONBody [some "a", none]).2.1 = resBadJSONBody := by
  exact (json_malformed_selector_vs_full engMalformed resBadJSONBody
    (strToBytes "not json") rfl rfl rfl rfl rfl [some "a", none]).1

/-! ## C9: invalid body representation -/

/-- C9: on a Response whose stored body is neither a byte sequence nor
a string, the JSON accessor (with or without selector) and the HTML
accessor all fail with InvalidBodyType. -/
theorem invalid_body_type_rejects (eng : JSONEngine) (henv : HTMLEngine) (res : Response)
    (hother : res.body = Body.other) (hc : res.cachedJSON = none) :
    (Response.JSONcall eng res none).result = .error .invalidBodyType
    ∧ (∀ s, (Response.JSONcall eng res (some s)).result = .error .invalidBodyType)
    ∧ (∀ osel, htmlCall henv res.body osel = .error .invalidBodyType) := by
  have hb : res.body.toBytes = none := by rw [hother]; rfl
  have hs : res.body.toStr = none := by rw [hother]; rfl
  refine ⟨?_, ?_, ?_⟩
  · simp [Response.JSONcall, hc, hb]
  · intro s; simp [Response.JSONcall, hb]
  · intro osel; simp [htmlCall, hs]

/-- An HTML engine whose documents are all empty selections. -/
def henvEmptyDoc : HTMLEngine := ⟨fun _ => some Sel.empty⟩

/-- A concrete Response whose body is neither bytes nor string. -/
def resOtherBody : Response := ⟨"http://host/x", .other, none, false⟩

theorem invalid_body_type_rejects_witness :
    (Response.JSONcall engWellFormed resOtherBody none).result = .error .invalidBodyType
    ∧ htmlCall henvEmptyDoc resOtherBody.body none = .error .invalidBodyType := by
  have h := invalid_body_type_rejects engWellFormed henvEmptyDoc resOtherBody rfl rfl
  exact ⟨h.1, h.2.2 none⟩

/-! ## C10: the validity flag is monotone and truthful -/

/-- C10: the `validatedJSON` flag is set to true exactly on a
successful syntax validation or a successful full parse and is never
reset; under the reachability invariant (a populated cache implies a set
flag) a successful no-selector call leaves the flag set; once the flag
is set a selector-bearing call performs no re-validation and returns
undefined exactly for a missing path; and a selector call on an invalid
body leaves the whole lazy state unchanged. -/
theorem json_validated_flag_invariant (eng : JSONEngine) (res : Response)
    (sel : Option String) :
    (res.validatedJSON = true → (Response.JSONcall eng res sel).next.validatedJSON = true)
    ∧ (Response.JSONcall eng res sel).next.validatedJSON
        = (res.validatedJSON || validationEvent eng res sel)
    ∧ ((res.cachedJSON.isSome → res.validatedJSON = true) →
        (Response.JSONcall eng res sel).next.cachedJSON.isSome →
          (Response.JSONcall eng res sel).next.validatedJSON = true)
    ∧ ((res.cachedJSON.isSome → res.validatedJSON = true) → sel = none →
        ∀ gv, (Response.JSONcall eng res sel).result = .ok gv →
          (Response.JSONcall eng res sel).next.validatedJSON = true)
    ∧ (res.validatedJSON = true → ∀ s bs, sel = some s → res.body.toBytes = some bs →
        (Response.JSONcall eng res sel).validCalls = 0
        ∧ ((Response.JSONcall eng res sel).result = .ok .undefined
            ↔ eng.getBytes bs s = none))
    ∧ (∀ s bs, sel = some s → res.body.toBytes = some bs → res.validatedJSON = false →
        eng.validBytes bs = false → (Response.JSONcall eng res sel).next = res) := by
  have hflag : (Response.JSONcall eng res sel).next.validatedJSON
      = (res.validatedJSON || validationEvent eng res sel) := by
    cases sel with
    | none =>
      cases hcache : res.cachedJSON with
      | some c =>
        cases hb : res.body.toBytes <;>
          simp [Response.JSONcall, validationEvent, hcache, hb]
      | none =>
        cases hb : res.body.toBytes with
        | none => simp [Response.JSONcall, validationEvent, hcache, hb]
        | some bs =>
          cases hp : eng.unmarshal bs <;>
            simp [Response.JSONcall, validationEvent, hcache, hb, hp]
    | some s =>
      cases hb : res.body.toBytes with
      | none => simp [Response.JSONcall, validationEvent, hb]
      | some bs =>
        cases hval : res.validatedJSON with
        | true =>
          cases hg : eng.getBytes bs s <;>
            simp [Response.JSONcall, validationEvent, hb, hval, hg]
        | false =>
          cases hv : eng.validBytes bs with
          | false => simp [Response.JSONcall, validationEvent, hb, hval, hv]
          | true =>
            cases hg : eng.getBytes bs s <;>
              simp [Response.JSONcall, validationEvent, hb, hval, hv, hg]
  have hcachekeep : sel = none ∨ (Response.JSONcall eng res sel).next.cachedJSON
      = res.cachedJSON := by
    cases sel with
    | none => exact Or.inl rfl
    | some s =>
      refine Or.inr ?_
      cases hb : res.body.toBytes with
      | none => simp [Response.JSONcall, hb]
      | some bs =>
        cases hval : res.validatedJSON with
        | true =>
          cases hg : eng.getBytes bs s <;> simp [Response.JSONcall, hb, hval, hg]
        | false =>
          cases hv : eng.validBytes bs with
          | false => simp [Response.JSONcall, hb, hval, hv]
          | true =>
            cases hg : eng.getBytes bs s <;> simp [Response.JSONcall, hb, hval, hv, hg]
  refine ⟨?_, hflag, ?_, ?_, ?_, ?_⟩
  · intro h
    rw [hflag, h, Bool.true_or]
  · intro hinv hsome
    rcases hcachekeep with hnone | hkeep
    · subst hnone
      cases hcache : res.cachedJSON with
      | some c =>
        have := hinv (by rw [hcache]; rfl)
        rw [hflag, this, Bool.true_or]
      | none =>
        cases hb : res.body.toBytes with
        | none => simp [Response.JSONcall, hcache, hb] at hsome
        | some bs =>
          cases hp : eng.unmarshal bs with
          | none => simp [Response.JSONcall, hcache, hb, hp] at hsome
          | some v => simp [Response.JSONcall, hcache, hb, hp]
    · rw [hkeep] at hsome
      have := hinv hsome
      rw [hflag, this, Bool.true_or]
  · intro hinv hsel gv hok
    subst hsel
    cases hcache : res.cachedJSON with
    | some c =>
      have := hinv (by rw [hcache]; rfl)
      rw [hflag, this, Bool.true_or]
    | none =>
      cases hb : res.body.toBytes with
      | none => simp [Response.JSONcall, hcache, hb] at hok
      | some bs =>
        cases hp : eng.unmarshal bs with
        | none => simp [Response.JSONcall, hcache, hb, hp] at hok
        | some v => simp [Response.JSONcall, hcache, hb, hp]
  · intro hval s bs hsel hb
    subst hsel
    cases hg : eng.getBytes bs s <;>
      simp [Response.JSONcall, hb, hval, hg]
  · intro s bs hsel hb hval hv
    subst hsel
    simp [Response.JSONcall, hb, hval, hv]

theorem json_validated_flag_invariant_witness :
    (Response.JSONcall engMalformed resBadJSONBody (some "a")).next = resBadJSONBody
    ∧ (Response.JSONcall engWellFormed resNumberBody none).next.validatedJSON = true := by
  refine ⟨?_, ?_⟩
  · exact (json_validated_flag_invariant engMalformed resBadJSONBody (some "a")).2.2.2.2.2
      "a" (strToBytes "not json") rfl rfl rfl rfl
  · exact (json_validated_flag_invariant engWellFormed resNumberBody none).2.2.2.1
      (fun h => by simp [resNumberBody] at h) rfl (GojaValue.val (JSON.num 1)) rfl

/-! ## C3: SubmitForm failure order (corrected) -/

/-- C3 (amended): in SubmitForm the form is selected and the
FormNotFound check runs before the response URL is parsed, so a missing
form wins over an unparseable URL; MalformedURL is reached only once a
form was found. -/
theorem submitForm_failure_order (henv : HTMLEngine) (res : Response)
    (formSelector submitSelector : String) (fields : List (String × String)) (form : Sel)
    (hform : htmlCall henv res.body (some formSelector) = .ok form) :
    (form.size = 0 →
      submitForm henv res formSelector submitSelector fields = .error .formNotFound)
    ∧ (form.size ≠ 0 → urlParse res.url = none →
      submitForm henv res formSelector submitSelector fields = .error .malformedURL) := by
  constructor
  · intro h0
    simp [submitForm, hform, h0]
  · intro hne hparse
    simp [submitForm, hform, hne, hparse]

/-- A concrete HTML engine whose document contains no matching
elements at all. -/
def henvNoForm : HTMLEngine :=
  ⟨fun _ => some (Sel.mk 1 (fun _ => none) none [] (fun _ => none))⟩

/-- A concrete Response whose URL does not parse (leading colon means
`missing protocol scheme`) and whose body contains no form. -/
def resBadURLNoForm : Response := ⟨":badscheme", .str "<html></html>", none, false⟩

theorem submitForm_order_counterexample :
    urlParse resBadURLNoForm.url = none
    ∧ submitForm henvNoForm resBadURLNoForm defaultFormSelector defaultSubmitSelector []
        = .error .formNotFound
    ∧ HTTPError.formNotFound ≠ HTTPError.malformedURL :=
  ⟨by decide, rfl, by decide⟩

/-- A form element with no attributes, fields or children. -/
def selPlainForm : Sel := Sel.mk 1 (fun _ => none) none [] (fun _ => none)

/-- An HTML engine whose document contains exactly one plain form. -/
def henvPlainForm : HTMLEngine :=
  ⟨fun _ => some (Sel.mk 1 (fun _ => none) none []
    (fun q => if q = "form" then some selPlainForm else none))⟩

/-- A concrete Response whose URL does not parse but whose body does
contain a form. -/
def resBadURLWithForm : Response := ⟨":badscheme", .str "<form></form>", none, false⟩

theorem submitForm_failure_order_witness :
    submitForm henvPlainForm resBadURLWithForm "form" defaultSubmitSelector []
      = .error .malformedURL := by
  exact (submitForm_failure_order henvPlainForm resBadURLWithForm "form"
    defaultSubmitSelector [] selPlainForm rfl).2 (by decide) (by decide)

/-! ## C4: target URL from the action attribute (corrected) -/

/-- C4 (amended): in SubmitForm the target URL is the response URL
itself when the action attribute is absent, and the action attribute
parsed and resolved against the base when the attribute is present -
including a present-but-empty action, which goes through reference
resolution and therefore yields the base with dot segments collapsed;
this equals the base URL itself exactly when the base path is unchanged
by dot-segment collapsing. -/
theorem formTarget_action_resolution (u : URL) (form : Sel) :
    (form.attr "action" = none → formTargetURL u form = .ok u)
    ∧ (∀ a, form.attr "action" = some a →
        formTargetURL u form =
          match urlParse a with
          | none => .error .malformedURL
          | some aU => .ok (u.resolveReference aU))
    ∧ (form.attr "action" = some "" → resolvePath u.path "" = u.path →
        formTargetURL u form = .ok u) := by
  refine ⟨?_, ?_, ?_⟩
  · intro h; simp [formTargetURL, h]
  · intro a h; simp [formTargetURL, h]
  · intro h hnorm
    have hparse : urlParse "" = some ⟨"", "", "", ""⟩ := by decide
    simp [formTargetURL, h, hparse, URL.resolveReference, hnorm]

/-- A form whose action attribute is present but empty. -/
def selEmptyActionForm : Sel :=
  Sel.mk 1 (fun a => if a = "action" then some "" else none) none [] (fun _ => none)

/-- An HTML engine whose document contains exactly that form. -/
def henvEmptyActionForm : HTMLEngine :=
  ⟨fun _ => some (Sel.mk 1 (fun _ => none) none []
    (fun q => if q = "form" then some selEmptyActionForm else none))⟩

/-- A concrete Response whose (parseable) URL carries a dot segment. -/
def resDotDotURL : Response := ⟨"http://host/a/..", .str "<form action></form>", none, false⟩

theorem formTarget_empty_action_counterexample :
    selEmptyActionForm.attr "action" = some ""
    ∧ urlParse resDotDotURL.url = some ⟨"http", "host", "/a/..", ""⟩
    ∧ formTargetURL ⟨"http", "host", "/a/..", ""⟩ selEmptyActionForm
        = .ok ⟨"http", "host", "/", ""⟩
    ∧ (⟨"http", "host", "/", ""⟩ : URL) ≠ ⟨"http", "host", "/a/..", ""⟩
    ∧ submitForm henvEmptyActionForm resDotDotURL "form" defaultSubmitSelector []
        = .ok ⟨"GET", "http://host/", none⟩
    ∧ ("http://host/" : String) ≠ "http://host/a/.." := by
  exact ⟨by decide, by decide, rfl, by decide, rfl, by decide⟩

theorem formTarget_action_resolution_witness :
    formTargetURL ⟨"http", "host", "/form", ""⟩ selEmptyActionForm
      = .ok ⟨"http", "host", "/form", ""⟩ := by
  exact (formTarget_action_resolution ⟨"http", "host", "/form", ""⟩
    selEmptyActionForm).2.2 (by decide) (by decide)

/-! ## C5: method defaulting and the GET query encoding -/

/-- C5: in SubmitForm the request method is the form method attribute
upper-cased when present and GET otherwise; and when the resulting
method is GET, the field mapping is encoded as a query string replacing
the target URL query component and the request carries no body. -/
theorem submitForm_method_get (henv : HTMLEngine) (res : Response)
    (formSelector submitSelector : String) (fields : List (String × String))
    (form : Sel) (u t : URL)
    (hform : htmlCall henv res.body (some formSelector) = .ok form)
    (hsz : form.size ≠ 0)
    (hurl : urlParse res.url = some u)
    (htgt : formTargetURL u form = .ok t) :
    (form.attr "method" = none → formMethod form = "GET")
    ∧ (∀ m, form.attr "method" = some m → formMethod form = strToUpper m)
    ∧ (formMethod form = "GET" →
        submitForm henv res formSelector submitSelector fields =
          .ok { method := "GET",
                url := URL.render
                  { t with rawQuery := encodeValues (formValues form submitSelector fields) },
                formBody := none }) := by
  refine ⟨?_, ?_, ?_⟩
  · intro h; simp [formMethod, h, HTTP_METHOD_GET]
  · intro m h; simp [formMethod, h]
  · intro h
    simp [submitForm, hform, hsz, hurl, htgt, h, HTTP_METHOD_GET]

/-- A form with one serialized text field `x=1` and no attributes. -/
def selGetForm : Sel := Sel.mk 1 (fun _ => none) none [("x", "1")] (fun _ => none)

/-- An HTML engine whose document contains exactly that form. -/
def henvGetForm : HTMLEngine :=
  ⟨fun _ => some (Sel.mk 1 (fun _ => none) none []
    (fun q => if q = "form" then some selGetForm else none))⟩

/-- A concrete Response for the form page. -/
def resFormPage : Response :=
  ⟨"http://host/form", .str "<form><input name=x value=1></form>", none, false⟩

theorem submitForm_method_get_witness :
    submitForm henvGetForm resFormPage "form" defaultSubmitSelector []
      = .ok ⟨"GET", "http://host/form?x=1", none⟩ := by
  have h := (submitForm_method_get henvGetForm resFormPage "form"
    defaultSubmitSelector [] selGetForm ⟨"http", "host", "/form", ""⟩
    ⟨"http", "host", "/form", ""⟩ rfl (by decide) (by decide) rfl).2.2 (by decide)
  exact h.trans rfl

/-! ## C6: field mapping precedence -/

theorem lookupVal_nil (k : String) : lookupVal [] k = none := rfl

theorem lookupVal_cons (p : String × String) (rest : List (String × String)) (k : String) :
    lookupVal (p :: rest) k = if p.1 = k then some p.2 else lookupVal rest k := by
  by_cases h : p.1 = k
  · simp [lookupVal, List.find?, h]
  · simp [lookupVal, List.find?, h]

theorem lookupVal_upsert (m : List (String × String)) (k v k' : String) :
    lookupVal (upsert m k v) k' = if k' = k then some v else lookupVal m k' := by
  induction m with
  | nil =>
    show lookupVal [(k, v)] k' = _
    rw [lookupVal_cons]
    by_cases h : k' = k
    · rw [if_pos h.symm, if_pos h]
    · rw [if_neg (fun hh : k = k' => h hh.symm), if_neg h, lookupVal_nil]
  | cons p rest ih =>
    by_cases hpk : p.1 = k
    · have hrw : upsert (p :: rest) k v = (k, v) :: rest := by
        rw [upsert, if_pos hpk]
      rw [hrw, lookupVal_cons, lookupVal_cons]
      by_cases h : k' = k
      · rw [if_pos h.symm, if_pos h]
      · rw [if_neg (fun hh : k = k' => h hh.symm), if_neg h,
          if_neg (fun hh : p.1 = k' => h (hpk.symm.trans hh).symm)]
    · have hrw : upsert (p :: rest) k v = p :: upsert rest k v := by
        rw [upsert, if_neg hpk]
      rw [hrw, lookupVal_cons, ih, lookupVal_cons]
      by_cases h : k' = k
      · rw [if_neg (fun hh : p.1 = k' => hpk (hh.trans h)), if_pos h, if_pos h]
      · rw [if_neg h, if_neg h]

theorem lookupVal_eq_none_of_not_mem (m : List (String × String)) (k : String)
    (h : k ∉ m.map Prod.fst) : lookupVal m k = none := by
  induction m with
  | nil => rfl
  | cons p rest ih =>
    rw [List.map_cons, List.mem_cons] at h
    push_neg at h
    rw [lookupVal_cons, if_neg (fun hh => h.1 hh.symm)]
    exact ih h.2

theorem lookupVal_foldl_upsert (k : String) :
    ∀ (fields : List (String × String)) (m : List (String × String)),
      (fields.map Prod.fst).Nodup →
      lookupVal (fields.foldl (fun acc kv => upsert acc kv.1 kv.2) m) k
        = (lookupVal fields k).elim (lookupVal m k) some := by
  intro fields
  induction fields with
  | nil => intro m _; rfl
  | cons p rest ih =>
    intro m hnd
    rw [List.map_cons, List.nodup_cons] at hnd
    rw [List.foldl_cons, ih (upsert m p.1 p.2) hnd.2]
    by_cases h : k = p.1
    · have hrest : lookupVal rest k = none := by
        rw [h]
        exact lookupVal_eq_none_of_not_mem rest p.1 hnd.1
      rw [hrest, lookupVal_cons, if_pos h.symm, lookupVal_upsert, if_pos h]
      rfl
    · rw [lookupVal_upsert, if_neg h, lookupVal_cons, if_neg (fun hh => h hh.symm)]

/-- C6: the field mapping of SubmitForm is built as serialized form
values, overridden by the submit control pair when both its name and
value are defined, overridden in turn by the caller-supplied fields:
the lookup of any key goes to the caller fields first, then to the
submit pair, then to the serialized values. -/
theorem formValues_precedence (form : Sel) (submitSelector : String)
    (fields : List (String × String)) (k : String)
    (hnd : (fields.map Prod.fst).Nodup) :
    lookupVal (formValues form submitSelector fields) k
      = (lookupVal fields k).elim
          (match (form.find submitSelector).attr "name", (form.find submitSelector).val with
            | some n, some v => if k = n then some v else lookupVal form.serializeObject k
            | some _, none => lookupVal form.serializeObject k
            | none, _ => lookupVal form.serializeObject k)
          some := by
  have hmid : lookupVal
      (match (form.find submitSelector).attr "name", (form.find submitSelector).val with
        | some n, some v => upsert form.serializeObject n v
        | _, _ => form.serializeObject) k
      = (match (form.find submitSelector).attr "name", (form.find submitSelector).val with
          | some n, some v => if k = n then some v else lookupVal form.serializeObject k
          | some _, none => lookupVal form.serializeObject k
          | none, _ => lookupVal form.serializeObject k) := by
    cases hn : (form.find submitSelector).attr "name" with
    | none => rfl
    | some n =>
      cases hv : (form.find submitSelector).val with
      | none => rfl
      | some v => exact lookupVal_upsert form.serializeObject n v k
  simp only [formValues]
  rw [lookupVal_foldl_upsert k fields _ hnd, hmid]

/-- A submit control with name `s` and value `go`. -/
def selSubmitBtn : Sel :=
  Sel.mk 1 (fun a => if a = "name" then some "s" else none) (some "go") [] (fun _ => none)

/-- A form with serialized fields `a=1`, `b=2` and that submit control. -/
def selFormWithSubmit : Sel :=
  Sel.mk 1 (fun _ => none) none [("a", "1"), ("b", "2")]
    (fun q => if q = "[type=\"submit\"]" then some selSubmitBtn else none)

theorem formValues_precedence_witness :
    lookupVal (formValues selFormWithSubmit defaultSubmitSelector [("b", "9"), ("c", "3")]) "b"
      = some "9" := by
  exact (formValues_precedence selFormWithSubmit defaultSubmitSelector
    [("b", "9"), ("c", "3")] "b" (by decide)).trans rfl

/-! ## C7: ClickLink failure separation -/

/-- C7: in ClickLink a selector matching no element fails with
ElementNotFound, a matched element without an href attribute fails with
the distinct MissingHrefAttribute, and the two error kinds differ. -/
theorem clickLink_failures (henv : HTMLEngine) (res : Response) (selector : String)
    (u : URL) (link : Sel)
    (hurl : urlParse res.url = some u)
    (hhtml : htmlCall henv res.body (some selector) = .ok link) :
    (link.size = 0 → clickLink henv res selector = .error .elementNotFound)
    ∧ (link.size ≠ 0 → link.attr "href" = none →
        clickLink henv res selector = .error .missingHrefAttribute)
    ∧ HTTPError.elementNotFound ≠ HTTPError.missingHrefAttribute := by
  refine ⟨?_, ?_, by decide⟩
  · intro h0
    simp [clickLink, hurl, hhtml, h0]
  · intro hne hhref
    simp [clickLink, hurl, hhtml, hne, hhref]

/-- A concrete page with no link elements. -/
def resPlainPage : Response := ⟨"http://host/a/b", .str "<html></html>", none, false⟩

theorem clickLink_failures_witness :
    clickLink henvNoForm resPlainPage defaultLinkSelector = .error .elementNotFound := by
  exact (clickLink_failures henvNoForm resPlainPage defaultLinkSelector
    ⟨"http", "host", "/a/b", ""⟩ Sel.empty (by decide) rfl).1 rfl

/-! ## C8: ClickLink href resolution -/

/-- C8: in ClickLink the href attribute value is parsed as a URL
reference and resolved against the response URL before a GET request to
the resolved URL is issued. -/
theorem clickLink_resolves_href (henv : HTMLEngine) (res : Response) (selector : String)
    (u : URL) (link : Sel) (href : String) (hrefURL : URL)
    (hurl : urlParse res.url = some u)
    (hhtml : htmlCall henv res.body (some selector) = .ok link)
    (hsz : link.size ≠ 0)
    (hhref : link.attr "href" = some href)
    (hhrefParse : urlParse href = some hrefURL) :
    clickLink henv res selector =
      .ok { method := HTTP_METHOD_GET, url := (u.resolveReference hrefURL).render,
            formBody := none } := by
  simp [clickLink, hurl, hhtml, hsz, hhref, hhrefParse]

/-- An anchor element with href `../c`. -/
def selAnchorDotDot : Sel :=
  Sel.mk 1 (fun a => if a = "href" then some "../c" else none) none [] (fun _ => none)

/-- An HTML engine whose document contains exactly that anchor. -/
def henvAnchorDotDot : HTMLEngine :=
  ⟨fun _ => some (Sel.mk 1 (fun _ => none) none []
    (fun q => if q = "a[href]" then some selAnchorDotDot else none))⟩

/-- The page at `http://host/a/b` carrying that anchor. -/
def resLinkPage : Response := ⟨"http://host/a/b", .str "<a href=../c>x</a>", none, false⟩

theorem clickLink_resolves_href_witness :
    clickLink henvAnchorDotDot resLinkPage defaultLinkSelector
      = .ok ⟨"GET", "http://host/c", none⟩ := by
  exact (clickLink_resolves_href henvAnchorDotDot resLinkPage defaultLinkSelector
    ⟨"http", "host", "/a/b", ""⟩ selAnchorDotDot "../c" ⟨"", "", "../c", ""⟩
    (by decide) rfl (by decide) rfl (by decide)).trans rfl

end K6Http
